import Mathlib

/-!
Shallow embedding of the rollkit DA-includer (package `block`, the
`DAIncluderLoop` / `incrementDAIncludedHeight` pair) and of the node
helpers (`Retry`, `getNodeHeight`, `waitForAtLeastNDAIncludedHeight`).

Heights are modelled as mathematical naturals (the Go code uses `uint64`;
wrap-around at 2^64, unreachable for block heights, is not modelled).  The
byte encoding `binary.LittleEndian.PutUint64` is modelled faithfully as an
8-byte little-endian list.  Fallible Go calls return `Option String`
(`none` = nil error).  The side effects of one `incrementDAIncludedHeight`
call are recorded as an explicit event trace so that ordering claims can
be stated.  Possible failures of the external collaborators (`SetFinal`,
`SetMetadata`) and possible concurrent interference on the atomic cell are
supplied by an environment.
-/

namespace RollkitSpec

/-- The 8-byte little-endian encoding written by
`binary.LittleEndian.PutUint64(heightBytes, newHeight)`. -/
def putUint64LE (v : Nat) : List Nat :=
  [v % 256, v / 256 % 256, v / 256 ^ 2 % 256, v / 256 ^ 3 % 256,
   v / 256 ^ 4 % 256, v / 256 ^ 5 % 256, v / 256 ^ 6 % 256, v / 256 ^ 7 % 256]

/-- The mutable state owned by the Manager that the DA-includer touches:
the volatile atomic cell `m.daIncludedHeight` and the durable store entry
under `DAIncludedHeightKey` (`none` = key absent). -/
structure MState where
  daIncludedHeight : Nat
  metadata : Option (List Nat)
deriving DecidableEq

/-- Reader accessor `m.GetDAIncludedHeight()`: a lock-free read of the
volatile cell. -/
def GetDAIncludedHeight (s : MState) : Nat :=
  s.daIncludedHeight

/-- One observable side effect of `incrementDAIncludedHeight`:
a `SetFinal` call, a `SetMetadata` write, or the `CompareAndSwap`
on the volatile cell (with its outcome). -/
inductive Event where
  | setFinal (height : Nat)
  | setMetadata (value : List Nat)
  | cas (old new : Nat) (success : Bool)
deriving DecidableEq

/-- Environment of one drain pass: outcomes of the external calls, keyed by
the height being committed.  `setFinalErr h` / `setMetadataErr h` is the
error (if any) returned by `m.exec.SetFinal(ctx, h)` /
`m.store.SetMetadata(ctx, DAIncludedHeightKey, bytes h)`.
`cellInterference h = some v` means a foreign writer set the atomic cell to
`v` between the read at the top of `incrementDAIncludedHeight` committing
`h` and its `CompareAndSwap`; `none` means the single-writer guarantee held
for that commit. -/
structure Env where
  setFinalErr : Nat → Option String
  setMetadataErr : Nat → Option String
  cellInterference : Nat → Option Nat

/-- Model of `(m *Manager) incrementDAIncludedHeight(ctx)`:
reads the cell, calls `SetFinal(newHeight)`, on success writes the encoded
height to the store, on success compare-and-swaps the cell from
`currentHeight` to `newHeight`, erroring if the swap fails.  Returns the
final state, the trace of effects performed, and the returned error. -/
def incrementDAIncludedHeight (env : Env) (s : MState) :
    MState × List Event × Option String :=
  let currentHeight := GetDAIncludedHeight s
  let newHeight := currentHeight + 1
  match env.setFinalErr newHeight with
  | some e => (s, [Event.setFinal newHeight], some e)
  | none =>
    let heightBytes := putUint64LE newHeight
    match env.setMetadataErr newHeight with
    | some e => (s, [Event.setFinal newHeight, Event.setMetadata heightBytes], some e)
    | none =>
      let s1 : MState := { s with metadata := some heightBytes }
      let observed := (env.cellInterference newHeight).getD s1.daIncludedHeight
      if observed = currentHeight then
        ({ s1 with daIncludedHeight := newHeight },
         [Event.setFinal newHeight, Event.setMetadata heightBytes,
          Event.cas currentHeight newHeight true],
         none)
      else
        ({ s1 with daIncludedHeight := observed },
         [Event.setFinal newHeight, Event.setMetadata heightBytes,
          Event.cas currentHeight newHeight false],
         some ("failed to set DA included height: " ++ toString newHeight))

/-- How one drain pass of `DAIncluderLoop` ended: `done` = the inner loop
hit a `break` (oracle error or "not included") and the outer loop returns
to waiting on `daIncluderCh`; `panicked` = `incrementDAIncludedHeight`
returned an error and the loop called `panic`; `fuelExhausted` = the
bounded model ran out of steps (never reached when the oracle stops
confirming within the supplied fuel). -/
inductive DrainStatus where
  | done
  | panicked (msg : String)
  | fuelExhausted
deriving DecidableEq

/-- Whether the pass ended in the `panic` call of `DAIncluderLoop`. -/
def DrainStatus.isPanicked : DrainStatus → Bool
  | .panicked _ => true
  | _ => false

/-- The inner `for` loop of `DAIncluderLoop`, fuelled.  `cur` is the local
`currentDAIncluded` variable; `oracle h` models `m.IsDAIncluded(ctx, h)`
(`none` = error, `some b` = `(b, nil)`).  On `daIncluded` it performs
`incrementDAIncludedHeight` and panics on error, otherwise advances `cur`
and continues; on oracle error or "not included" it breaks. -/
def daIncluderDrainLoop (env : Env) (oracle : Nat → Option Bool) :
    Nat → Nat → MState → MState × List Event × DrainStatus
  | 0, _, s => (s, [], DrainStatus.fuelExhausted)
  | fuel + 1, cur, s =>
    let nextHeight := cur + 1
    match oracle nextHeight with
    | none => (s, [], DrainStatus.done)
    | some false => (s, [], DrainStatus.done)
    | some true =>
      match incrementDAIncludedHeight env s with
      | (s1, tr1, some e) =>
        (s1, tr1,
         DrainStatus.panicked ("error while incrementing DA included height: " ++ e))
      | (s1, tr1, none) =>
        let r := daIncluderDrainLoop env oracle fuel nextHeight s1
        (r.1, tr1 ++ r.2.1, r.2.2)

/-- One full drain pass of `DAIncluderLoop` after a wake-up on
`daIncluderCh`: starts the inner loop at
`currentDAIncluded := m.GetDAIncludedHeight()`. -/
def DAIncluderDrainPass (env : Env) (oracle : Nat → Option Bool) (fuel : Nat)
    (s : MState) : MState × List Event × DrainStatus :=
  daIncluderDrainLoop env oracle fuel (GetDAIncludedHeight s) s

/-- The trace emitted by one successful commit advancing the cell from `h`
to `h+1`. -/
def commitEvents (h : Nat) : List Event :=
  [Event.setFinal (h + 1), Event.setMetadata (putUint64LE (h + 1)),
   Event.cas h (h + 1) true]

/-- The trace of `k` consecutive successful commits starting at height `h`. -/
def commitsTrace : Nat → Nat → List Event
  | _, 0 => []
  | h, k + 1 => commitEvents h ++ commitsTrace (h + 1) k

/-- The heights a reader of `GetDAIncludedHeight` observes across a run of
the advancement loop: one observation before each drain pass and one after
the last (a pass that panics aborts the process, ending the run). -/
def runObservations : List (Env × (Nat → Option Bool) × Nat) → MState → List Nat
  | [], s => [GetDAIncludedHeight s]
  | p :: rest, s =>
    let r := DAIncluderDrainPass p.1 p.2.1 p.2.2 s
    match r.2.2 with
    | DrainStatus.panicked _ => [GetDAIncludedHeight s, GetDAIncludedHeight r.1]
    | _ => GetDAIncludedHeight s :: runObservations rest r.1

/-- Loop body of `func Retry`: `retryLoop fn r k` runs the remaining `r`
iterations of `for i := 1; i <= tries-1; i++` followed by the trailing
`return fn()`, where `k` invocations of `fn` have already happened
(`fn j` is the result of the `j`-th invocation, counted from 0).  Returns
the error result of `Retry` together with the total number of invocations
of `fn`. -/
def retryLoop {E : Type} (fn : Nat → Option E) : Nat → Nat → Option E × Nat
  | 0, k => (fn k, k + 1)
  | r + 1, k =>
    match fn k with
    | none => (none, k + 1)
    | some _ => retryLoop fn (r) (k + 1)

/-- Model of `func Retry(tries int, durationBetweenAttempts, fn)`: the
`for` loop executes `max 0 (tries-1)` times, returning nil on the first
successful attempt, then the trailing `return fn()` runs.  The sleep
between attempts has no observable effect here.  Returns `Retry`'s error
result together with how many times `fn` was invoked. -/
def Retry {E : Type} (tries : Int) (fn : Nat → Option E) : Option E × Nat :=
  retryLoop fn (tries - 1).toNat 0

/-- Two's-complement wrap of an integer to Go's 64-bit `int` width: the
unique value in `[-2^63, 2^63)` congruent mod `2^64` (the numerals are
`2^63` and `2^64`). -/
def goInt64 (x : Int) : Int :=
  (x + 9223372036854775808) % 18446744073709551616 - 9223372036854775808

/-- Wrap-faithful model of the `for i := 1; i <= tries-1; i++` loop of
`Retry` at `int64` width: `bound` is the already-wrapped value of
`tries - 1`, `i` the loop counter (incremented with 64-bit wrap, as Go
increments do), `k` the number of invocations of `fn` made so far.
`fuel` bounds how many iterations are executed: the first component is
`some r` when the function returned with result `r` within `fuel`
iterations and `none` when the loop is still running (at
`bound = MaxInt` the loop condition can never become false, so with a
permanently failing `fn` the Go loop does not terminate); the second
component is the number of invocations of `fn` performed. -/
def retryGoLoop {E : Type} (fn : Nat → Option E) (bound : Int) :
    Nat → Int → Nat → Option (Option E) × Nat
  | 0, _, k => (none, k)
  | fuel + 1, i, k =>
    if i ≤ bound then
      match fn k with
      | none => (some none, k + 1)
      | some _ => retryGoLoop fn bound fuel (goInt64 (i + 1)) (k + 1)
    else
      (some (fn k), k + 1)

/-- Wrap-faithful model of `func Retry(tries int, ...)` on a 64-bit `int`:
`tries - 1` is computed with two's-complement wrap (so
`tries = MinInt = -2^63` yields bound `MaxInt`), then the loop runs
followed by the trailing `return fn()`. -/
def RetryGo {E : Type} (tries : Int) (fn : Nat → Option E) (fuel : Nat) :
    Option (Option E) × Nat :=
  retryGoLoop fn (goInt64 (tries - 1)) fuel 1 0

/-- Go `Source` values (`Source int` with `iota` constants). -/
def Header : Int := 0

/-- The `Block` source tag. -/
def Block : Int := 1

/-- The `Store` source tag. -/
def Store : Int := 2

/-- Node variants implementing the `Node` interface: a `FullNode` carries a
header-sync service, a data-sync service and a block manager store (whose
`GetStoreHeight` may itself return an error); a `LightNode` carries only a
header-sync service. -/
inductive Node where
  | FullNode (headerHeight dataHeight storeHeight : Nat) (storeErr : Option String)
  | LightNode (headerHeight : Nat)
deriving DecidableEq

/-- Model of `getNodeHeightFromHeader`. -/
def getNodeHeightFromHeader : Node → Nat × Option String
  | Node.FullNode h _ _ _ => (h, none)
  | Node.LightNode h => (h, none)

/-- Model of `getNodeHeightFromBlock`: only a `FullNode` has the data-sync
service. -/
def getNodeHeightFromBlock : Node → Nat × Option String
  | Node.FullNode _ d _ _ => (d, none)
  | Node.LightNode _ => (0, some "not a full node")

/-- Model of `getNodeHeightFromStore`: only a `FullNode` has the block
manager; its `GetStoreHeight` result is passed through verbatim. -/
def getNodeHeightFromStore : Node → Nat × Option String
  | Node.FullNode _ _ sh serr => (sh, serr)
  | Node.LightNode _ => (0, some "not a full node")

/-- Model of `getNodeHeight`: dispatch on the source tag, with the `switch`
default returning an "invalid source" error. -/
def getNodeHeight (node : Node) (source : Int) : Nat × Option String :=
  if source = Header then getNodeHeightFromHeader node
  else if source = Block then getNodeHeightFromBlock node
  else if source = Store then getNodeHeightFromStore node
  else (0, some "invalid source")

/-- Whether the node variant is a `FullNode` (runs data-sync and the block
manager alongside header-sync). -/
def Node.isFullNode : Node → Bool
  | Node.FullNode _ _ _ _ => true
  | Node.LightNode _ => false

/-- Which `(node, source)` pairs the facade supports: the Header view
exists on every variant, the Block and Store views only on a `FullNode`,
and no other source tag is valid. -/
def supportsSource (node : Node) (source : Int) : Bool :=
  if source = Header then true
  else if source = Block then node.isFullNode
  else if source = Store then node.isFullNode
  else false

/-- One polling attempt of `waitForAtLeastNDAIncludedHeight`'s closure,
given the observed `GetDAIncludedHeight()` value: height 0 fails with
"waiting for DA inclusion", a height `>= n` succeeds, anything else fails
with a descriptive error. -/
def daWaitAttempt (n nHeight : Nat) : Option String :=
  if nHeight = 0 then some "waiting for DA inclusion"
  else if n ≤ nHeight then none
  else some ("expected height > " ++ toString n ++ ", got " ++ toString nHeight)

/-- Model of `waitForAtLeastNDAIncludedHeight(node, n)`:
`Retry(300, 100ms, fn)` where attempt `k` observes
`node.blockManager.GetDAIncludedHeight() = heights k`. -/
def waitForAtLeastNDAIncludedHeight (heights : Nat → Nat) (n : Nat) :
    Option String × Nat :=
  Retry 300 (fun k => daWaitAttempt n (heights k))

/-! ### Case lemmas for incrementDAIncludedHeight -/

theorem increment_setFinal_err (env : Env) (s : MState) (e : String)
    (h : env.setFinalErr (s.daIncludedHeight + 1) = some e) :
    incrementDAIncludedHeight env s =
      (s, [Event.setFinal (s.daIncludedHeight + 1)], some e) := by
  simp only [incrementDAIncludedHeight, GetDAIncludedHeight, h]

theorem increment_meta_err (env : Env) (s : MState) (e : String)
    (hfin : env.setFinalErr (s.daIncludedHeight + 1) = none)
    (hmeta : env.setMetadataErr (s.daIncludedHeight + 1) = some e) :
    incrementDAIncludedHeight env s =
      (s, [Event.setFinal (s.daIncludedHeight + 1),
           Event.setMetadata (putUint64LE (s.daIncludedHeight + 1))], some e) := by
  simp only [incrementDAIncludedHeight, GetDAIncludedHeight, hfin, hmeta]

theorem increment_success (env : Env) (s : MState)
    (hfin : env.setFinalErr (s.daIncludedHeight + 1) = none)
    (hmeta : env.setMetadataErr (s.daIncludedHeight + 1) = none)
    (hintf : env.cellInterference (s.daIncludedHeight + 1) = none) :
    incrementDAIncludedHeight env s =
      ({ daIncludedHeight := s.daIncludedHeight + 1,
         metadata := some (putUint64LE (s.daIncludedHeight + 1)) },
       commitEvents s.daIncludedHeight, none) := by
  simp only [incrementDAIncludedHeight, GetDAIncludedHeight, hfin, hmeta, hintf,
    Option.getD, commitEvents]
  simp

theorem increment_cas_interference (env : Env) (s : MState) (v : Nat)
    (hfin : env.setFinalErr (s.daIncludedHeight + 1) = none)
    (hmeta : env.setMetadataErr (s.daIncludedHeight + 1) = none)
    (hintf : env.cellInterference (s.daIncludedHeight + 1) = some v)
    (hne : v ≠ s.daIncludedHeight) :
    incrementDAIncludedHeight env s =
      ({ daIncludedHeight := v,
         metadata := some (putUint64LE (s.daIncludedHeight + 1)) },
       [Event.setFinal (s.daIncludedHeight + 1),
        Event.setMetadata (putUint64LE (s.daIncludedHeight + 1)),
        Event.cas s.daIncludedHeight (s.daIncludedHeight + 1) false],
       some ("failed to set DA included height: " ++
         toString (s.daIncludedHeight + 1))) := by
  simp only [incrementDAIncludedHeight, GetDAIncludedHeight, hfin, hmeta, hintf,
    Option.getD]
  rw [if_neg hne]

/-! ### Claims about incrementDAIncludedHeight -/

/-- C2: `incrementDAIncludedHeight` performs its effects in strict order —
`SetFinal(next)` first, then the durable write of the little-endian encoded
height, then the compare-and-swap on the volatile cell — and when a step
errors, that step's successors do not appear in the trace of the call. -/
theorem incrementDAIncludedHeight_ordering (env : Env) (s : MState) :
    (∀ e, env.setFinalErr (s.daIncludedHeight + 1) = some e →
      incrementDAIncludedHeight env s =
        (s, [Event.setFinal (s.daIncludedHeight + 1)], some e)) ∧
    (∀ e, env.setFinalErr (s.daIncludedHeight + 1) = none →
      env.setMetadataErr (s.daIncludedHeight + 1) = some e →
      incrementDAIncludedHeight env s =
        (s, [Event.setFinal (s.daIncludedHeight + 1),
             Event.setMetadata (putUint64LE (s.daIncludedHeight + 1))], some e)) ∧
    (env.setFinalErr (s.daIncludedHeight + 1) = none →
      env.setMetadataErr (s.daIncludedHeight + 1) = none →
      ∃ b, (incrementDAIncludedHeight env s).2.1 =
        [Event.setFinal (s.daIncludedHeight + 1),
         Event.setMetadata (putUint64LE (s.daIncludedHeight + 1)),
         Event.cas s.daIncludedHeight (s.daIncludedHeight + 1) b]) := by
  refine ⟨fun e he => increment_setFinal_err env s e he,
    fun e hfin hmeta => increment_meta_err env s e hfin hmeta,
    fun hfin hmeta => ?_⟩
  cases hintf : env.cellInterference (s.daIncludedHeight + 1) with
  | none =>
    rw [increment_success env s hfin hmeta hintf]
    exact ⟨true, rfl⟩
  | some v =>
    by_cases hv : v = s.daIncludedHeight
    · subst hv
      simp only [incrementDAIncludedHeight, GetDAIncludedHeight, hfin, hmeta, hintf,
        Option.getD]
      exact ⟨true, by simp⟩
    · rw [increment_cas_interference env s v hfin hmeta hintf hv]
      exact ⟨false, rfl⟩

/-- Witness for C2 at height 4 with each of the three step outcomes. -/
theorem incrementDAIncludedHeight_ordering_witness :
    (incrementDAIncludedHeight
        ⟨fun _ => some "final boom", fun _ => none, fun _ => none⟩ ⟨4, none⟩ =
      (⟨4, none⟩, [Event.setFinal 5], some "final boom")) ∧
    (incrementDAIncludedHeight
        ⟨fun _ => none, fun _ => some "meta boom", fun _ => none⟩ ⟨4, none⟩ =
      (⟨4, none⟩, [Event.setFinal 5, Event.setMetadata (putUint64LE 5)],
       some "meta boom")) ∧
    (∃ b, (incrementDAIncludedHeight
        ⟨fun _ => none, fun _ => none, fun _ => none⟩ ⟨4, none⟩).2.1 =
      [Event.setFinal 5, Event.setMetadata (putUint64LE 5), Event.cas 4 5 b]) :=
  ⟨(incrementDAIncludedHeight_ordering _ ⟨4, none⟩).1 "final boom" rfl,
   (incrementDAIncludedHeight_ordering _ ⟨4, none⟩).2.1 "meta boom" rfl rfl,
   (incrementDAIncludedHeight_ordering _ ⟨4, none⟩).2.2 rfl rfl⟩

/-- C3: if the durable write for height H+1 fails after SetFinal succeeded,
the volatile cell still holds H when `incrementDAIncludedHeight` returns
its error, and the compare-and-swap is never reached (no cas event in the
trace). -/
theorem increment_durable_write_failure (env : Env) (s : MState) (e : String)
    (hfin : env.setFinalErr (s.daIncludedHeight + 1) = none)
    (hmeta : env.setMetadataErr (s.daIncludedHeight + 1) = some e) :
    GetDAIncludedHeight (incrementDAIncludedHeight env s).1 =
      GetDAIncludedHeight s ∧
    (incrementDAIncludedHeight env s).2.2 = some e ∧
    ∀ o n b, Event.cas o n b ∉ (incrementDAIncludedHeight env s).2.1 := by
  rw [increment_meta_err env s e hfin hmeta]
  refine ⟨rfl, rfl, ?_⟩
  intro o n b
  simp

/-- Witness for C3 at height 8 with a failing durable write. -/
theorem increment_durable_write_failure_witness :
    ((⟨fun _ => none, fun _ => some "disk full", fun _ => none⟩ : Env).setFinalErr 9 = none ∧
     (⟨fun _ => none, fun _ => some "disk full", fun _ => none⟩ : Env).setMetadataErr 9 = some "disk full") ∧
    (GetDAIncludedHeight (incrementDAIncludedHeight
        ⟨fun _ => none, fun _ => some "disk full", fun _ => none⟩
        ⟨8, some (putUint64LE 8)⟩).1 =
      GetDAIncludedHeight (⟨8, some (putUint64LE 8)⟩ : MState) ∧
     (incrementDAIncludedHeight
        ⟨fun _ => none, fun _ => some "disk full", fun _ => none⟩
        ⟨8, some (putUint64LE 8)⟩).2.2 = some "disk full" ∧
     ∀ o n b, Event.cas o n b ∉ (incrementDAIncludedHeight
        ⟨fun _ => none, fun _ => some "disk full", fun _ => none⟩
        ⟨8, some (putUint64LE 8)⟩).2.1) :=
  ⟨⟨rfl, rfl⟩,
   increment_durable_write_failure _ ⟨8, some (putUint64LE 8)⟩ "disk full" rfl rfl⟩

/-- C6: a compare-and-swap failure after a successful durable write is
treated as fatal — `incrementDAIncludedHeight` returns an error and the
drain pass of `DAIncluderLoop` panics instead of returning to waiting —
and the branch is unreachable while the loop is the single writer of the
cell: with no interference, a call whose SetFinal and SetMetadata succeed
returns nil. -/
theorem cas_failure_fatal (env : Env) (s : MState) (oracle : Nat → Option Bool)
    (fuel : Nat)
    (hfin : env.setFinalErr (s.daIncludedHeight + 1) = none)
    (hmeta : env.setMetadataErr (s.daIncludedHeight + 1) = none)
    (hor : oracle (s.daIncludedHeight + 1) = some true)
    (hfuel : 1 ≤ fuel) :
    (∀ v, env.cellInterference (s.daIncludedHeight + 1) = some v →
      v ≠ s.daIncludedHeight →
      ((incrementDAIncludedHeight env s).2.2.isSome = true ∧
       (DAIncluderDrainPass env oracle fuel s).2.2.isPanicked = true)) ∧
    (env.cellInterference (s.daIncludedHeight + 1) = none →
      (incrementDAIncludedHeight env s).2.2 = none) := by
  constructor
  · intro v hintf hne
    have hinc := increment_cas_interference env s v hfin hmeta hintf hne
    obtain ⟨f, rfl⟩ : ∃ f, fuel = f + 1 := ⟨fuel - 1, by omega⟩
    refine ⟨by rw [hinc]; rfl, ?_⟩
    unfold DAIncluderDrainPass
    simp only [daIncluderDrainLoop, GetDAIncludedHeight, hor, hinc]
    rfl
  · intro hintf
    rw [increment_success env s hfin hmeta hintf]

/-- Witness for C6: cell at 5, a foreign writer moved it to 99 before the
swap — the call errors and the pass panics; without interference the call
succeeds. -/
theorem cas_failure_fatal_witness :
    (((incrementDAIncludedHeight
        ⟨fun _ => none, fun _ => none, fun _ => some 99⟩ ⟨5, none⟩).2.2.isSome = true ∧
      (DAIncluderDrainPass ⟨fun _ => none, fun _ => none, fun _ => some 99⟩
        (fun _ => some true) 1 ⟨5, none⟩).2.2.isPanicked = true)) ∧
    (incrementDAIncludedHeight
        ⟨fun _ => none, fun _ => none, fun _ => none⟩ ⟨5, none⟩).2.2 = none :=
  ⟨(cas_failure_fatal ⟨fun _ => none, fun _ => none, fun _ => some 99⟩ ⟨5, none⟩
      (fun _ => some true) 1 rfl rfl rfl (by norm_num)).1 99 rfl (by decide),
   (cas_failure_fatal ⟨fun _ => none, fun _ => none, fun _ => none⟩ ⟨5, none⟩
      (fun _ => some true) 1 rfl rfl rfl (by norm_num)).2 rfl⟩

/-- C1 (amended): when SetFinal or the durable write for the next height
fails, `incrementDAIncludedHeight` returns the error and `DAIncluderLoop`
treats it as fatal — the drain pass ends in a panic that aborts the loop,
rather than returning to idle waiting and retrying on the next trigger. -/
theorem transient_error_panics (env : Env) (s : MState)
    (oracle : Nat → Option Bool) (fuel : Nat)
    (hor : oracle (s.daIncludedHeight + 1) = some true)
    (hfuel : 1 ≤ fuel)
    (herr : (env.setFinalErr (s.daIncludedHeight + 1)).isSome = true ∨
      (env.setFinalErr (s.daIncludedHeight + 1) = none ∧
       (env.setMetadataErr (s.daIncludedHeight + 1)).isSome = true)) :
    (DAIncluderDrainPass env oracle fuel s).2.2.isPanicked = true := by
  obtain ⟨f, rfl⟩ : ∃ f, fuel = f + 1 := ⟨fuel - 1, by omega⟩
  have hinc : ∃ s1 tr1 e, incrementDAIncludedHeight env s = (s1, tr1, some e) := by
    rcases herr with hfin | ⟨hfin, hmeta⟩
    · rcases Option.isSome_iff_exists.mp hfin with ⟨e, he⟩
      exact ⟨s, _, e, increment_setFinal_err env s e he⟩
    · rcases Option.isSome_iff_exists.mp hmeta with ⟨e, he⟩
      exact ⟨s, _, e, increment_meta_err env s e hfin he⟩
  obtain ⟨s1, tr1, e, hinc⟩ := hinc
  unfold DAIncluderDrainPass
  simp only [daIncluderDrainLoop, GetDAIncludedHeight, hor, hinc]
  rfl

/-- Witness for the amended C1: a failing SetFinal(11) call makes the pass
from height 10 panic. -/
theorem transient_error_panics_witness :
    ((fun _ => some true : Nat → Option Bool) (10 + 1) = some true ∧
     ((⟨fun _ => some "boom", fun _ => none, fun _ => none⟩ : Env).setFinalErr
        (10 + 1)).isSome = true) ∧
    (DAIncluderDrainPass ⟨fun _ => some "boom", fun _ => none, fun _ => none⟩
        (fun _ => some true) 4 ⟨10, none⟩).2.2.isPanicked = true :=
  ⟨⟨rfl, rfl⟩,
   transient_error_panics ⟨fun _ => some "boom", fun _ => none, fun _ => none⟩
     ⟨10, none⟩ (fun _ => some true) 4 rfl (by norm_num) (Or.inl rfl)⟩

/-- Counterexample to C1 as stated: at height 10 with the oracle confirming
height 11 and `SetFinal(11)` failing transiently, the drain pass does not
stop draining and return to idle waiting — `DAIncluderLoop` panics. -/
theorem transient_error_counterexample :
    (DAIncluderDrainPass ⟨fun _ => some "boom", fun _ => none, fun _ => none⟩
        (fun _ => some true) 3 ⟨10, none⟩).2.2 =
      DrainStatus.panicked "error while incrementing DA included height: boom" ∧
    (DAIncluderDrainPass ⟨fun _ => some "boom", fun _ => none, fun _ => none⟩
        (fun _ => some true) 3 ⟨10, none⟩).2.2 ≠ DrainStatus.done := by
  constructor
  · rfl
  · decide

/-! ### Monotonicity of the volatile cell -/

theorem increment_cell_mono (env : Env) (s : MState)
    (hintf : ∀ h, env.cellInterference h = none) :
    s.daIncludedHeight ≤ (incrementDAIncludedHeight env s).1.daIncludedHeight := by
  cases hfin : env.setFinalErr (s.daIncludedHeight + 1) with
  | some e =>
    rw [increment_setFinal_err env s e hfin]
  | none =>
    cases hmeta : env.setMetadataErr (s.daIncludedHeight + 1) with
    | some e =>
      rw [increment_meta_err env s e hfin hmeta]
    | none =>
      rw [increment_success env s hfin hmeta (hintf _)]
      exact Nat.le_succ _

theorem drainLoop_cell_mono (env : Env) (oracle : Nat → Option Bool)
    (hintf : ∀ h, env.cellInterference h = none) (fuel : Nat) :
    ∀ cur s, s.daIncludedHeight ≤
      (daIncluderDrainLoop env oracle fuel cur s).1.daIncludedHeight := by
  induction fuel with
  | zero => intro cur s; exact le_rfl
  | succ f ih =>
    intro cur s
    simp only [daIncluderDrainLoop]
    cases hor : oracle (cur + 1) with
    | none => exact le_rfl
    | some b =>
      cases b with
      | false => exact le_rfl
      | true =>
        have h1 := increment_cell_mono env s hintf
        cases hinc : incrementDAIncludedHeight env s with
        | mk s1 rest =>
          rw [hinc] at h1
          cases rest with
          | mk tr1 res =>
            cases res with
            | some e => exact h1
            | none => exact le_trans h1 (ih (cur + 1) s1)

theorem runObservations_head (passes : List (Env × (Nat → Option Bool) × Nat))
    (s : MState) :
    (runObservations passes s).head? = some (GetDAIncludedHeight s) := by
  cases passes with
  | nil => rfl
  | cons p rest =>
    simp only [runObservations]
    cases (DAIncluderDrainPass p.1 p.2.1 p.2.2 s).2.2 <;> rfl

/-- C4: across every run of drain passes in which the advancement loop is
the single writer of the cell, the heights observed through
`GetDAIncludedHeight` are monotonically non-decreasing — no step of the
loop ever replaces the volatile cell's value with a smaller one. -/
theorem daIncludedHeight_monotone
    (passes : List (Env × (Nat → Option Bool) × Nat)) (s : MState)
    (hintf : ∀ p ∈ passes, ∀ h, p.1.cellInterference h = none) :
    List.Chain' (· ≤ ·) (runObservations passes s) := by
  revert hintf
  induction passes generalizing s with
  | nil =>
    intro hintf
    simp [runObservations]
  | cons p rest ih =>
    intro hintf
    have hp : ∀ h, p.1.cellInterference h = none :=
      hintf p (List.mem_cons_self _ _)
    have hmono : GetDAIncludedHeight s ≤
        GetDAIncludedHeight (DAIncluderDrainPass p.1 p.2.1 p.2.2 s).1 :=
      drainLoop_cell_mono p.1 p.2.1 hp p.2.2 (GetDAIncludedHeight s) s
    simp only [runObservations]
    cases hst : (DAIncluderDrainPass p.1 p.2.1 p.2.2 s).2.2 with
    | panicked msg =>
      exact List.chain'_cons.mpr ⟨hmono, List.chain'_singleton _⟩
    | done =>
      rw [List.chain'_cons']
      refine ⟨?_, ih _ (fun q hq => hintf q (List.mem_cons_of_mem _ hq))⟩
      intro b hb
      rw [runObservations_head] at hb
      obtain rfl := Option.mem_some_iff.mp hb
      exact hmono
    | fuelExhausted =>
      rw [List.chain'_cons']
      refine ⟨?_, ih _ (fun q hq => hintf q (List.mem_cons_of_mem _ hq))⟩
      intro b hb
      rw [runObservations_head] at hb
      obtain rfl := Option.mem_some_iff.mp hb
      exact hmono

/-- Witness for C4: one interference-free pass from height 10 draining up
to height 12. -/
theorem daIncludedHeight_monotone_witness :
    (∀ p ∈ [((⟨fun _ => none, fun _ => none, fun _ => none⟩ : Env),
        (fun h => if h ≤ 12 then some true else some false : Nat → Option Bool),
        (5 : Nat))], ∀ h, p.1.cellInterference h = none) ∧
    List.Chain' (· ≤ ·) (runObservations
      [((⟨fun _ => none, fun _ => none, fun _ => none⟩ : Env),
        (fun h => if h ≤ 12 then some true else some false : Nat → Option Bool),
        (5 : Nat))] ⟨10, none⟩) := by
  have hp : ∀ p ∈ [((⟨fun _ => none, fun _ => none, fun _ => none⟩ : Env),
      (fun h => if h ≤ 12 then some true else some false : Nat → Option Bool),
      (5 : Nat))], ∀ h, p.1.cellInterference h = none := by
    intro p hp h
    rw [List.mem_singleton] at hp
    subst hp
    rfl
  exact ⟨hp, daIncludedHeight_monotone _ ⟨10, none⟩ hp⟩

/-! ### Contiguity of draining -/

theorem drainLoop_contiguous (env : Env) (oracle : Nat → Option Bool) (k : Nat) :
    ∀ (H fuel : Nat) (s : MState), s.daIncludedHeight = H → k < fuel →
    (∀ i, i < k → oracle (H + 1 + i) = some true) →
    oracle (H + k + 1) ≠ some true →
    (∀ i, i < k → env.setFinalErr (H + 1 + i) = none) →
    (∀ i, i < k → env.setMetadataErr (H + 1 + i) = none) →
    (∀ i, i < k → env.cellInterference (H + 1 + i) = none) →
    daIncluderDrainLoop env oracle fuel H s =
      ({ daIncludedHeight := H + k,
         metadata := if k = 0 then s.metadata else some (putUint64LE (H + k)) },
       commitsTrace H k, DrainStatus.done) := by
  induction k with
  | zero =>
    intro H fuel s hs hfuel hor1 hor2 hfin hmeta hintf
    subst hs
    obtain ⟨f, rfl⟩ : ∃ f, fuel = f + 1 := ⟨fuel - 1, by omega⟩
    have hor2a : oracle (s.daIncludedHeight + 1) ≠ some true := by
      have e : s.daIncludedHeight + 0 + 1 = s.daIncludedHeight + 1 := by omega
      rwa [e] at hor2
    simp only [daIncluderDrainLoop]
    cases ho : oracle (s.daIncludedHeight + 1) with
    | none => simp [commitsTrace]
    | some b =>
      cases b with
      | true => exact absurd ho hor2a
      | false => simp [commitsTrace]
  | succ k ih =>
    intro H fuel s hs hfuel hor1 hor2 hfin hmeta hintf
    subst hs
    obtain ⟨f, rfl⟩ : ∃ f, fuel = f + 1 := ⟨fuel - 1, by omega⟩
    have h1 : oracle (s.daIncludedHeight + 1) = some true := by
      have := hor1 0 (by omega)
      have e : s.daIncludedHeight + 1 + 0 = s.daIncludedHeight + 1 := by omega
      rwa [e] at this
    have hinc : incrementDAIncludedHeight env s =
        ({ daIncludedHeight := s.daIncludedHeight + 1,
           metadata := some (putUint64LE (s.daIncludedHeight + 1)) },
         commitEvents s.daIncludedHeight, none) := by
      have e : s.daIncludedHeight + 1 + 0 = s.daIncludedHeight + 1 := by omega
      refine increment_success env s ?_ ?_ ?_
      · have := hfin 0 (by omega); rwa [e] at this
      · have := hmeta 0 (by omega); rwa [e] at this
      · have := hintf 0 (by omega); rwa [e] at this
    simp only [daIncluderDrainLoop, h1, hinc]
    have ihres := ih (s.daIncludedHeight + 1) f
      ⟨s.daIncludedHeight + 1, some (putUint64LE (s.daIncludedHeight + 1))⟩
      rfl (by omega)
      (fun i hi => by
        have := hor1 (i + 1) (by omega)
        have e : s.daIncludedHeight + 1 + (i + 1) = s.daIncludedHeight + 1 + 1 + i := by
          omega
        rwa [e] at this)
      (by
        have e : s.daIncludedHeight + (k + 1) + 1 = s.daIncludedHeight + 1 + k + 1 := by
          omega
        rwa [e] at hor2)
      (fun i hi => by
        have := hfin (i + 1) (by omega)
        have e : s.daIncludedHeight + 1 + (i + 1) = s.daIncludedHeight + 1 + 1 + i := by
          omega
        rwa [e] at this)
      (fun i hi => by
        have := hmeta (i + 1) (by omega)
        have e : s.daIncludedHeight + 1 + (i + 1) = s.daIncludedHeight + 1 + 1 + i := by
          omega
        rwa [e] at this)
      (fun i hi => by
        have := hintf (i + 1) (by omega)
        have e : s.daIncludedHeight + 1 + (i + 1) = s.daIncludedHeight + 1 + 1 + i := by
          omega
        rwa [e] at this)
    rw [ihres]
    have e1 : s.daIncludedHeight + 1 + k = s.daIncludedHeight + (k + 1) := by omega
    cases k with
    | zero => simp [commitsTrace, e1]
    | succ j =>
      have e2 : (j + 1 = 0) = False := by simp
      simp only [e1, commitsTrace]
      simp

/-- C5: in a single drain pass starting at confirmed height H, if the
oracle confirms heights H+1..H+k contiguously, reports the first
non-confirmed or not-yet-determinable height at H+k+1, and the commits
succeed, the pass advances the cell to exactly H+k — by consecutive +1
commits (the trace is exactly the k consecutive commit traces), never
skipping a height, committing a height only after the oracle confirmed
that exact height. -/
theorem drain_contiguity (env : Env) (oracle : Nat → Option Bool)
    (H k fuel : Nat) (s : MState)
    (hs : GetDAIncludedHeight s = H) (hfuel : k < fuel)
    (hor1 : ∀ i, i < k → oracle (H + 1 + i) = some true)
    (hor2 : oracle (H + k + 1) ≠ some true)
    (hfin : ∀ i, i < k → env.setFinalErr (H + 1 + i) = none)
    (hmeta : ∀ i, i < k → env.setMetadataErr (H + 1 + i) = none)
    (hintf : ∀ i, i < k → env.cellInterference (H + 1 + i) = none) :
    DAIncluderDrainPass env oracle fuel s =
      ({ daIncludedHeight := H + k,
         metadata := if k = 0 then s.metadata else some (putUint64LE (H + k)) },
       commitsTrace H k, DrainStatus.done) := by
  unfold DAIncluderDrainPass
  rw [hs]
  exact drainLoop_contiguous env oracle k H fuel s hs hfuel hor1 hor2 hfin hmeta hintf

/-- Witness for C5 at the spec's example: height 10, oracle confirms 11 and
12, reports "not yet" at 13; one pass ends at exactly 12. -/
theorem drain_contiguity_witness :
    ((∀ i, i < 2 → (fun h => if h ≤ 12 then some true else none : Nat → Option Bool)
        (10 + 1 + i) = some true) ∧
     (fun h => if h ≤ 12 then some true else none : Nat → Option Bool)
        (10 + 2 + 1) ≠ some true) ∧
    DAIncluderDrainPass ⟨fun _ => none, fun _ => none, fun _ => none⟩
        (fun h => if h ≤ 12 then some true else none) 5 ⟨10, none⟩ =
      ({ daIncludedHeight := 12, metadata := some (putUint64LE 12) },
       commitsTrace 10 2, DrainStatus.done) := by
  refine ⟨⟨by decide, by decide⟩, ?_⟩
  have := drain_contiguity ⟨fun _ => none, fun _ => none, fun _ => none⟩
    (fun h => if h ≤ 12 then some true else none) 10 2 5 ⟨10, none⟩
    rfl (by omega) (by decide) (by decide)
    (fun _ _ => rfl) (fun _ _ => rfl) (fun _ _ => rfl)
  simpa using this

/-! ### Lemmas about the retry loop -/

theorem retryLoop_calls_le {E : Type} (fn : Nat → Option E) (r k : Nat) :
    (retryLoop fn r k).2 ≤ k + r + 1 := by
  induction r generalizing k with
  | zero => simp [retryLoop]
  | succ r ih =>
    cases hfk : fn k with
    | none => simp [retryLoop, hfk]
    | some e =>
      simp only [retryLoop, hfk]
      have := ih (k + 1)
      omega

theorem retryLoop_all_some {E : Type} (fn : Nat → Option E) (r k : Nat)
    (h : ∀ j, j < k + r → (fn j).isSome) :
    retryLoop fn r k = (fn (k + r), k + r + 1) := by
  induction r generalizing k with
  | zero => simp [retryLoop]
  | succ r ih =>
    have hk : (fn k).isSome := h k (by omega)
    cases hfk : fn k with
    | none => rw [hfk] at hk; simp at hk
    | some e =>
      simp only [retryLoop, hfk]
      have e1 : k + 1 + r = k + (r + 1) := by omega
      rw [ih (k + 1) (fun j hj => h j (by omega)), e1]

theorem retryLoop_first_none {E : Type} (fn : Nat → Option E) (r : Nat)
    (j : Nat) (hnone : fn j = none) :
    ∀ k, j < k + r + 1 → k ≤ j → (∀ i, k ≤ i → i < j → (fn i).isSome) →
    retryLoop fn r k = (none, j + 1) := by
  induction r with
  | zero =>
    intro k hj hkj _
    have : j = k := by omega
    subst this
    simp [retryLoop, hnone]
  | succ r ih =>
    intro k hj hkj hsome
    by_cases hkj2 : k = j
    · subst hkj2
      simp [retryLoop, hnone]
    · have hk : (fn k).isSome := hsome k le_rfl (by omega)
      cases hfk : fn k with
      | none => rw [hfk] at hk; simp at hk
      | some e =>
        simp only [retryLoop, hfk]
        exact ih (k + 1) (by omega) (by omega)
          (fun i h1 h2 => hsome i (by omega) h2)

/-! ### Claims about the node helpers -/

/-- C7: for every tries >= 1, `Retry(tries, delay, fn)` invokes `fn` at most
`tries` times, returns nil as soon as an invocation returns nil (after
exactly `j+1` invocations when the first success is invocation `j`), and if
all `tries` invocations fail it returns the error of the final, `tries`-th
invocation.  The spec's tries=3 scenarios are instances: fail-twice-then-
succeed gives `(nil, 3 calls)`, always-fail gives the 3rd invocation's
error. -/
theorem Retry_spec {E : Type} (tries : Int) (fn : Nat → Option E)
    (h : 1 ≤ tries) :
    (Retry tries fn).2 ≤ tries.toNat ∧
    ((∀ k, k < tries.toNat → (fn k).isSome) →
      Retry tries fn = (fn (tries.toNat - 1), tries.toNat)) ∧
    (∀ j, j < tries.toNat → fn j = none → (∀ k, k < j → (fn k).isSome) →
      Retry tries fn = (none, j + 1)) := by
  have ht : (tries - 1).toNat + 1 = tries.toNat := by omega
  refine ⟨?_, ?_, ?_⟩
  · have := retryLoop_calls_le fn (tries - 1).toNat 0
    unfold Retry
    omega
  · intro hall
    unfold Retry
    rw [retryLoop_all_some fn _ 0 (fun j hj => hall j (by omega))]
    have e1 : 0 + (tries - 1).toNat = tries.toNat - 1 := by omega
    have e2 : tries.toNat - 1 + 1 = tries.toNat := by omega
    rw [e1, e2]
  · intro j hj hnone hsome
    unfold Retry
    exact retryLoop_first_none fn _ j hnone 0 (by omega) (Nat.zero_le j)
      (fun i _ h2 => hsome i h2)

/-- Witness for C7 at the spec's two tries=3 scenarios. -/
theorem Retry_spec_witness :
    ((1 : Int) ≤ 3 ∧
      Retry 3 (fun k => if k < 2 then some (toString k) else none) = (none, 3)) ∧
    Retry 3 (fun k : Nat => (some (toString k) : Option String)) = (some "2", 3) := by
  refine ⟨⟨by norm_num, ?_⟩, ?_⟩
  · exact (Retry_spec 3 (fun k => if k < 2 then some (toString k) else none)
      (by norm_num)).2.2 2 (by decide) (by decide) (by decide)
  · have := (Retry_spec 3 (fun k : Nat => (some (toString k) : Option String))
      (by norm_num)).2.1 (fun k _ => rfl)
    simpa using this

theorem goInt64_eq_self (x : Int) (h1 : -9223372036854775808 ≤ x)
    (h2 : x < 9223372036854775808) : goInt64 x = x := by
  unfold goInt64
  omega

theorem retryGoLoop_eq_retryLoop {E : Type} (fn : Nat → Option E) (b : Int)
    (hb : b + 1 < 9223372036854775808) :
    ∀ fuel (i : Int) (k : Nat), 1 ≤ i → i ≤ b + 1 → (b - i + 1).toNat < fuel →
    retryGoLoop fn b fuel i k =
      (some (retryLoop fn (b - i + 1).toNat k).1,
       (retryLoop fn (b - i + 1).toNat k).2) := by
  intro fuel
  induction fuel with
  | zero =>
    intro i k h1 h2 h3
    omega
  | succ f ih =>
    intro i k h1 h2 h3
    by_cases hib : i ≤ b
    · have hr : (b - i + 1).toNat = (b - (i + 1) + 1).toNat + 1 := by omega
      simp only [retryGoLoop, if_pos hib]
      cases hfk : fn k with
      | none =>
        rw [hr]
        simp [retryLoop, hfk]
      | some e =>
        have hgi : goInt64 (i + 1) = i + 1 :=
          goInt64_eq_self _ (by omega) (by omega)
        rw [hgi, ih (i + 1) (k + 1) (by omega) (by omega) (by omega), hr]
        simp [retryLoop, hfk]
    · have h0 : (b - i + 1).toNat = 0 := by omega
      simp only [retryGoLoop, if_neg hib, h0, retryLoop]

theorem RetryGo_eq_Retry {E : Type} (tries : Int) (fn : Nat → Option E)
    (h1 : 1 ≤ tries) (h2 : tries < 9223372036854775808)
    (fuel : Nat) (hfuel : tries.toNat ≤ fuel) :
    RetryGo tries fn fuel = (some (Retry tries fn).1, (Retry tries fn).2) := by
  unfold RetryGo Retry
  rw [goInt64_eq_self _ (by omega) (by omega)]
  have h := retryGoLoop_eq_retryLoop fn (tries - 1) (by omega) fuel 1 0
    (by omega) (by omega) (by omega)
  have e : (tries - 1 - 1 + 1).toNat = (tries - 1).toNat := by omega
  rw [e] at h
  exact h

/-- C9 (amended): for every 64-bit-representable tries <= 1 other than
MinInt — that is, for -2^63 < tries <= 1, including 0 and the other
negative values — the loop body executes zero times, the trailing call
always runs, and `Retry` invokes `fn` exactly once, returning that single
invocation's result.  At tries = MinInt = -2^63 the Go computation
`tries - 1` wraps to MaxInt and the loop body re-invokes `fn` instead of
running zero times. -/
theorem RetryGo_tries_le_one {E : Type} (tries : Int) (fn : Nat → Option E)
    (h1 : -9223372036854775808 < tries) (h2 : tries ≤ 1)
    (fuel : Nat) (hfuel : 1 ≤ fuel) :
    RetryGo tries fn fuel = (some (fn 0), 1) := by
  obtain ⟨f, rfl⟩ : ∃ f, fuel = f + 1 := ⟨fuel - 1, by omega⟩
  unfold RetryGo
  rw [goInt64_eq_self _ (by omega) (by omega)]
  simp only [retryGoLoop]
  rw [if_neg (by omega)]

/-- Witness for the amended C9 at tries = 0: one invocation, its result
returned. -/
theorem RetryGo_tries_le_one_witness :
    ((-9223372036854775808 : Int) < 0 ∧ (0 : Int) ≤ 1 ∧ (1 : Nat) ≤ 1) ∧
    RetryGo 0 (fun _ : Nat => (some "boom" : Option String)) 1 =
      (some (some "boom"), 1) :=
  ⟨⟨by norm_num, by norm_num, le_refl 1⟩,
   RetryGo_tries_le_one 0 (fun _ => some "boom") (by norm_num) (by norm_num) 1
     (le_refl 1)⟩

/-- Counterexample to C9 as stated: tries = MinInt = -2^63 is <= 1, but
Go's `tries - 1` wraps to MaxInt, so with an always-failing `fn` the loop
has already invoked `fn` twice after two iterations and has not returned —
`fn` is not invoked exactly once. -/
theorem Retry_minInt_counterexample :
    (-9223372036854775808 : Int) ≤ 1 ∧
    (RetryGo (-9223372036854775808)
      (fun _ : Nat => (some "boom" : Option String)) 2).2 = 2 ∧
    (RetryGo (-9223372036854775808)
      (fun _ : Nat => (some "boom" : Option String)) 2).1 = none := by
  refine ⟨by norm_num, rfl, rfl⟩

/-- C8: `getNodeHeight` returns a non-nil error paired with height 0
whenever the requested view is unsupported by the node's variant or the
source tag is not one of Header, Block, Store; it never reports success
with a fabricated zero height for an unsupported combination. -/
theorem getNodeHeight_unsupported (node : Node) (source : Int)
    (h : supportsSource node source = false) :
    (getNodeHeight node source).2.isSome = true ∧
    (getNodeHeight node source).1 = 0 := by
  cases node with
  | FullNode a b c d =>
    unfold supportsSource at h
    unfold getNodeHeight
    split_ifs at h ⊢ <;> simp_all [Node.isFullNode]
  | LightNode a =>
    unfold supportsSource at h
    unfold getNodeHeight
    split_ifs at h ⊢ <;>
      simp_all [Node.isFullNode, getNodeHeightFromBlock, getNodeHeightFromStore]

/-- Witness for C8: the Block source on a LightNode (not a FullNode) yields
an error with height 0. -/
theorem getNodeHeight_unsupported_witness :
    supportsSource (Node.LightNode 7) Block = false ∧
    ((getNodeHeight (Node.LightNode 7) Block).2.isSome = true ∧
     (getNodeHeight (Node.LightNode 7) Block).1 = 0) :=
  ⟨by decide, getNodeHeight_unsupported (Node.LightNode 7) Block (by decide)⟩

/-- C10: `waitForAtLeastNDAIncludedHeight` treats an observed height of 0
as failure on every attempt even when the target is 0: an attempt succeeds
only when the observed height is nonzero and at least the target, so with
target 0 and the height permanently 0 all 300 attempts fail and the helper
returns the "waiting for DA inclusion" error. -/
theorem waitForDAIncludedHeight_zero_target (heights : Nat → Nat)
    (h : ∀ k, heights k = 0) :
    (waitForAtLeastNDAIncludedHeight heights 0).1 = some "waiting for DA inclusion" ∧
    (waitForAtLeastNDAIncludedHeight heights 0).2 = 300 ∧
    (∀ n nHeight, daWaitAttempt n nHeight = none ↔ (nHeight ≠ 0 ∧ n ≤ nHeight)) := by
  have hfn : ∀ k, daWaitAttempt 0 (heights k) = some "waiting for DA inclusion" := by
    intro k
    simp [daWaitAttempt, h k]
  have hres : waitForAtLeastNDAIncludedHeight heights 0 =
      (some "waiting for DA inclusion", 300) := by
    unfold waitForAtLeastNDAIncludedHeight Retry
    have e1 : ((300 : Int) - 1).toNat = 299 := by decide
    rw [e1, retryLoop_all_some _ 299 0 (fun j _ => by simp [hfn j])]
    simp [hfn]
  refine ⟨by rw [hres], by rw [hres], ?_⟩
  intro n nHeight
  unfold daWaitAttempt
  split_ifs with h1 h2
  · simp [h1]
  · simp [h1, h2]
  · simp [h1]
    omega

/-- Witness for C10 at the constant-zero height observation. -/
theorem waitForDAIncludedHeight_zero_target_witness :
    (∀ k : Nat, (fun _ : Nat => (0 : Nat)) k = 0) ∧
    (waitForAtLeastNDAIncludedHeight (fun _ => 0) 0).1 =
      some "waiting for DA inclusion" :=
  ⟨fun _ => rfl, (waitForDAIncludedHeight_zero_target (fun _ => 0) (fun _ => rfl)).1⟩

end RollkitSpec
